import Mathlib

/-!
Shallow embedding of the Faasm host-side execution environment:
the guest-to-host syscall bridge (src/wasm/syscalls.cpp) and the
OpenMP parallel runtime (src/wavm/openmp.cpp).

Guest linear memory is modelled as a list of bytes; host kernel calls
are modelled by an oracle structure `Host` supplying their return values,
and each syscall records the host calls it performs and the guest-memory
writes it makes.  A trap (WAVM `calledUnimplementedIntrinsicType`) is
modelled as `ret = none`.
-/

namespace Faasm

/-- Guest linear memory: a list of bytes (values taken mod 256 on read). -/
abbrev Mem := List Nat

def two32 : Nat := 4294967296

def pageSize : Nat := 65536

/-- Read one byte of guest memory; out-of-range reads give 0. -/
def readByte (m : Mem) (a : Nat) : Nat := (m.getD a 0) % 256

/-- Little-endian 16-bit read. -/
def readU16 (m : Mem) (a : Nat) : Nat := readByte m a + 256 * readByte m (a + 1)

/-- Little-endian 32-bit read (a guest `U32`). -/
def readU32 (m : Mem) (a : Nat) : Nat :=
  readByte m a + 256 * readByte m (a + 1) + 65536 * readByte m (a + 2) +
    16777216 * readByte m (a + 3)

/-- Reinterpret an unsigned 32-bit value as a signed `I32`. -/
def toI32 (n : Nat) : Int := if n % two32 < 2 ^ 31 then ((n % two32 : Nat) : Int) else (n % two32 : Nat) - (two32 : Int)

/-- Signed 32-bit read. -/
def readI32 (m : Mem) (a : Nat) : Int := toI32 (readU32 m a)

/-- Reinterpret an unsigned 16-bit value as a signed `I16`. -/
def toI16 (n : Nat) : Int := if n % 65536 < 2 ^ 15 then ((n % 65536 : Nat) : Int) else (n % 65536 : Nat) - 65536

/-- Signed 16-bit read. -/
def readI16 (m : Mem) (a : Nat) : Int := toI16 (readU16 m a)

/-- Read `len` consecutive bytes starting at `a`. -/
def readBytes (m : Mem) (a len : Nat) : List Nat :=
  (List.range len).map (fun i => readByte m (a + i))

/-- Read the NUL-terminated C string starting at `a`, as its list of bytes. -/
def readCString (m : Mem) (a : Nat) : List Nat :=
  ((m.drop a).map (fun b => b % 256)).takeWhile (fun b => b ≠ 0)

/-- Shadow `wasm_sockaddr`: 16-bit family plus 14 data bytes. -/
structure SockAddr where
  sa_family : Nat
  sa_data : List Nat
deriving Repr, DecidableEq

/-- `getSockAddr`: translate a wasm sockaddr at `addrPtr` into a native one. -/
def getSockAddr (m : Mem) (addrPtr : Nat) : SockAddr :=
  ⟨readU16 m addrPtr, readBytes m (addrPtr + 2) 14⟩

/-- Host kernel calls a syscall may perform, with the arguments passed. -/
inductive HostCall where
  | hSocket (domain ty protocol : Nat)
  | hConnect (fd : Int) (addr : SockAddr)
  | hBind (fd : Int) (addr : SockAddr)
  | hSend (fd : Int) (buf : List Nat) (flags : Int)
  | hRecv (fd : Int) (len : Nat) (flags : Int)
  | hSendto (fd : Int) (buf : List Nat) (flags : Int) (addr : SockAddr)
  | hRecvfrom (fd : Int) (len : Nat) (flags : Int)
  | hGetsockname (fd : Int)
  | hRead (fd : Int) (count : Nat)
  | hClose (fd : Int)
  | hPoll (fd : Int) (events : Int) (timeout : Int)
  | hOpen (path : List Nat)
  | hWritev (fd : Int) (iovs : List (List Nat))
  | hClockGettime (clockId : Int)
deriving Repr, DecidableEq

/-- Writes a syscall makes back into guest memory (recorded abstractly). -/
inductive GuestWrite where
  | sockAddrW (addrPtr : Nat) (sa : SockAddr)
  | sockLenW (ptr : Nat) (len : Nat)
  | pollW (fdsPtr : Nat) (revents : Int)
  | timespecW (ptr : Nat) (sec nsec : Int)
deriving Repr, DecidableEq

/-- Outcome of one syscall: `ret = none` models the fatal
`calledUnimplementedIntrinsicType` trap; `calls` are the host kernel calls
performed (in order); `writes` the guest-memory writes; `fds` the per-thread
descriptor registry after the call. -/
structure Out where
  ret : Option Int
  calls : List HostCall
  writes : List GuestWrite
  fds : List Int
deriving Repr, DecidableEq

/-- Oracle giving the host kernel's responses. -/
structure Host where
  socketRet : Int
  connectRet : Int
  bindRet : Int
  sendRet : Int
  recvRet : Int
  sendtoRet : Int
  recvfromRet : Int
  recvfromAddr : SockAddr
  recvfromLen : Nat
  getsocknameRet : Int
  getsocknameAddr : SockAddr
  getsocknameLen : Nat
  readRet : Int
  pollRet : Int
  pollRevents : Int
  openFdFor : List Nat → Int
  writevRet : Int → List (List Nat) → Int
  clockRes : Int
  clockSec : Int
  clockNsec : Int

/-- `checkThreadOwnsFd`: true iff the calling thread's registry holds `fd`. -/
def checkThreadOwnsFd (fds : List Int) (fd : Int) : Bool := fd ∈ fds

/-- The trap outcome: no host call made, no write, registry unchanged. -/
def trapOut (fds : List Int) : Out := ⟨none, [], [], fds⟩

-- Guest paths accepted by `__syscall_open`, and the host files they map to.

def hostsGuestPath : List Nat := "/etc/hosts".toList.map Char.toNat

def resolvGuestPath : List Nat := "/etc/resolv.conf".toList.map Char.toNat

def HOSTS_FILE : List Nat := "/usr/share/faasm/net/hosts".toList.map Char.toNat

def RESOLV_FILE : List Nat := "/usr/share/faasm/net/resolv.conf".toList.map Char.toNat

/-- `__syscall_open`: traps on nonzero mode, resolves the guest path against
the whitelist, opens the mapped host file, and registers the returned fd if
positive; traps otherwise. -/
def syscall_open (h : Host) (m : Mem) (fds : List Int) (pathPtr : Nat)
    (flags mode : Int) : Out :=
  if mode ≠ 0 then trapOut fds
  else
    let path := readCString m pathPtr
    if path = hostsGuestPath then
      let fd := h.openFdFor HOSTS_FILE
      if fd > 0 then ⟨some fd, [.hOpen HOSTS_FILE], [], fds.insert fd⟩
      else ⟨none, [.hOpen HOSTS_FILE], [], fds⟩
    else if path = resolvGuestPath then
      let fd := h.openFdFor RESOLV_FILE
      if fd > 0 then ⟨some fd, [.hOpen RESOLV_FILE], [], fds.insert fd⟩
      else ⟨none, [.hOpen RESOLV_FILE], [], fds⟩
    else trapOut fds

/-- `__syscall_fcntl64`: checks ownership then returns 0 (no-op stub). -/
def syscall_fcntl64 (fds : List Int) (fd : Int) (cmd c : Int) : Out :=
  if checkThreadOwnsFd fds fd then ⟨some 0, [], [], fds⟩ else trapOut fds

/-- `__syscall_read`: checks ownership, then reads via the host. -/
def syscall_read (h : Host) (fds : List Int) (fd : Int) (bufPtr count : Nat) : Out :=
  if checkThreadOwnsFd fds fd then ⟨some h.readRet, [.hRead fd count], [], fds⟩
  else trapOut fds

/-- `__syscall_close`: checks ownership, removes the fd, closes on the host. -/
def syscall_close (fds : List Int) (fd : Int) : Out :=
  if checkThreadOwnsFd fds fd then ⟨some 0, [.hClose fd], [], fds.erase fd⟩
  else trapOut fds

/-- `__syscall_poll`: only a single pollfd is supported; checks ownership of
the fd found in the guest pollfd struct, then delegates to host poll (which
writes `revents` back in place). -/
def syscall_poll (h : Host) (m : Mem) (fds : List Int) (fdsPtr : Nat)
    (nfds timeout : Int) : Out :=
  if nfds ≠ 1 then trapOut fds
  else
    let fd := readI32 m fdsPtr
    if checkThreadOwnsFd fds fd then
      ⟨some h.pollRet, [.hPoll fd (readI16 m (fdsPtr + 4)) timeout],
        [.pollW fdsPtr h.pollRevents], fds⟩
    else trapOut fds

/-- The host descriptor `fileno(stdout)`. -/
def stdoutFd : Int := 1

/-- The iovec array built by the `__syscall_writev` loop: entry `i` is the
guest bytes at `(base, len)` read from the shadow iovec at `iov + 8*i`. -/
def buildIovecs (m : Mem) (iov : Nat) : Nat → List (List Nat)
  | 0 => []
  | n + 1 =>
      buildIovecs m iov n ++
        [readBytes m (readU32 m (iov + 8 * n)) (readU32 m (iov + 8 * n + 4))]

/-- `__syscall_writev`: gathers the shadow iovecs and writes them to the host
stdout descriptor, whatever the guest `fd` argument. -/
def syscall_writev (h : Host) (m : Mem) (fds : List Int) (fd : Int)
    (iov iovcnt : Nat) : Out :=
  let iovs := buildIovecs m iov iovcnt
  ⟨some (h.writevRet stdoutFd iovs), [.hWritev stdoutFd iovs], [], fds⟩

/-- `__syscall_socketcall`: multiplexed socket entry; `call` selects the
sub-operation and `argsPtr` addresses a packed array of 32-bit words. -/
def syscall_socketcall (h : Host) (m : Mem) (fds : List Int)
    (call : Nat) (argsPtr : Nat) : Out :=
  if call = 1 then -- sc_socket
    let sock := h.socketRet
    ⟨some sock, [.hSocket (readU32 m argsPtr) (readU32 m (argsPtr + 4))
      (readU32 m (argsPtr + 8))], [], fds.insert sock⟩
  else if call = 3 then -- sc_connect
    let sockfd := readI32 m argsPtr
    if checkThreadOwnsFd fds sockfd then
      ⟨some h.connectRet,
        [.hConnect sockfd (getSockAddr m (readU32 m (argsPtr + 4)))], [], fds⟩
    else trapOut fds
  else if call = 9 ∨ call = 10 ∨ call = 11 ∨ call = 12 then
    -- sc_send / sc_recv / sc_sendto / sc_recvfrom
    let sockfd := readI32 m argsPtr
    let bufPtr := readU32 m (argsPtr + 4)
    let bufLen := readU32 m (argsPtr + 8)
    let flags := readI32 m (argsPtr + 12)
    if checkThreadOwnsFd fds sockfd then
      if call = 9 then
        ⟨some h.sendRet, [.hSend sockfd (readBytes m bufPtr bufLen) flags], [], fds⟩
      else if call = 10 then
        ⟨some h.recvRet, [.hRecv sockfd bufLen flags], [], fds⟩
      else
        let sockAddrPtr := readU32 m (argsPtr + 16)
        let addrLenPtr := readU32 m (argsPtr + 20)
        if call = 11 then
          ⟨some h.sendtoRet,
            [.hSendto sockfd (readBytes m bufPtr bufLen) flags (getSockAddr m sockAddrPtr)],
            [], fds⟩
        else
          ⟨some h.recvfromRet, [.hRecvfrom sockfd bufLen flags],
            [.sockAddrW sockAddrPtr h.recvfromAddr, .sockLenW addrLenPtr h.recvfromLen],
            fds⟩
    else trapOut fds
  else if call = 2 then -- sc_bind
    let sockfd := readI32 m argsPtr
    if checkThreadOwnsFd fds sockfd then
      ⟨some h.bindRet,
        [.hBind sockfd (getSockAddr m (readU32 m (argsPtr + 4)))], [], fds⟩
    else trapOut fds
  else if call = 6 then -- sc_getsockname
    let sockfd := readI32 m argsPtr
    let addrPtr := readU32 m (argsPtr + 4)
    let addrLenPtr := readU32 m (argsPtr + 8)
    if checkThreadOwnsFd fds sockfd then
      ⟨some h.getsocknameRet, [.hGetsockname sockfd],
        [.sockAddrW addrPtr h.getsocknameAddr, .sockLenW addrLenPtr h.getsocknameLen],
        fds⟩
    else trapOut fds
  else if call = 7 ∨ call = 8 ∨ call = 13 ∨ call = 14 ∨ call = 15 ∨ call = 16 ∨
      call = 17 ∨ call = 18 ∨ call = 19 ∨ call = 20 then
    -- unfinished sub-ops: stubbed, return 0
    ⟨some 0, [], [], fds⟩
  else if call = 5 ∨ call = 4 then -- sc_accept / sc_listen: server-side
    trapOut fds
  else -- unrecognised socketcall
    ⟨some 0, [], [], fds⟩

/-- Truncating cast of a signed integer to `I32` (two's complement). -/
def wrapI32 (x : Int) : Int := (x + 2 ^ 31) % 2 ^ 32 - 2 ^ 31

/-- `__syscall_clock_gettime`: queries the host clock, writes the shadow
32-bit timespec unconditionally (a host failure is only logged), returns 0. -/
def syscall_clock_gettime (h : Host) (fds : List Int)
    (clockId : Int) (resultAddress : Nat) : Out :=
  ⟨some 0, [.hClockGettime clockId],
    [.timespecW resultAddress (wrapI32 h.clockSec) (wrapI32 h.clockNsec)], fds⟩

-- ------------------------
-- Memory syscalls (state = current linear-memory page count)
-- ------------------------

/-- `__syscall_mmap`: traps unless `fd = -1`; otherwise ignores `addr` and the
protection arguments, grows memory by `ceil(length / pageSize)` pages and
returns the byte address (as `U32`) of the first newly allocated page.
Result: (return value or trap, new page count). -/
def syscall_mmap (pages : Nat) (addr length prot flags : Nat) (fd : Int)
    (offset : Nat) : Option Int × Nat :=
  if fd ≠ -1 then (none, pages)
  else
    let numPages := (length % two32 + pageSize - 1) / pageSize
    ((some ((pages * pageSize) % two32 : Nat)), pages + numPages)

/-- `__syscall_munmap`: unmaps the page range covering `[addr, addr+length)`.
Result: (return value, base page index, number of pages unmapped). -/
def syscall_munmap (addr length : Nat) : Int × Nat × Nat :=
  (0, addr % two32 / pageSize, (length % two32 + pageSize - 1) / pageSize)

/-- `__syscall_brk`: computes the target page count `addr / pageSize`; if at
most the current page count, returns the current break unchanged; otherwise
grows memory to the target and still returns the pre-grow break.
Result: (returned break, new page count). -/
def syscall_brk (pages : Nat) (addr : Nat) : Nat × Nat :=
  let targetPageCount := addr % two32 / pageSize
  let currentBreak := (pages * pageSize) % two32
  if targetPageCount ≤ pages then (currentBreak, pages)
  else (currentBreak, targetPageCount)

/-- Run a sequence of `brk` calls from a starting page count, collecting the
returned break values. -/
def brkRun (pages : Nat) : List Nat → List Nat
  | [] => []
  | a :: as =>
      let r := syscall_brk pages a
      r.1 :: brkRun r.2 as

-- ------------------------
-- OpenMP runtime (src/wavm/openmp.cpp)
-- ------------------------

-- Clang OpenMP schedule constants.

def sch_static_chunked : Int := 33

def sch_static : Int := 34

/-- The values `__kmpc_for_static_init_4` writes back through its pointers. -/
structure LoopBounds where
  lastIter : Int
  lower : Int
  upper : Int
  stride : Int
deriving Repr, DecidableEq

/-- `(x - 1)` in 32-bit unsigned arithmetic (wraps at 0), for `x < 2^32`. -/
def u32pred (x : Nat) : Nat := (x + two32 - 1) % two32

/-- `__kmpc_for_static_init_4`: computes the per-thread `lastIter`, `lower`,
`upper` and `stride` for a static loop.  `none` models the fatal
`Unimplemented scheduler` error on any other schedule.  `tripCount` is
computed as the code does, as an unsigned 32-bit value. -/
def kmpc_for_static_init_4 (numThreads tid : Nat) (schedule : Int)
    (lastIter lower upper stride : Int) (incr chunk : Int) : Option LoopBounds :=
  if numThreads = 1 then
    some ⟨1, lower, upper,
      if incr > 0 then upper - lower + 1 else -(lower - upper + 1)⟩
  else
    let tripCount : Nat :=
      (if incr = 1 then (upper - lower + 1) % (two32 : Int)
       else if incr = -1 then (lower - upper + 1) % (two32 : Int)
       else if incr > 0 then ((upper - lower).tdiv incr + 1) % (two32 : Int)
       else ((lower - upper).tdiv (-incr) + 1) % (two32 : Int)).toNat
    if schedule = sch_static_chunked then
      let chunk' : Int := if chunk < 1 then 1 else chunk
      let span := chunk' * incr
      let lower' := lower + span * tid
      some ⟨if (tid : Int) = ((u32pred tripCount / chunk'.toNat) % numThreads : Nat) then 1 else 0,
        lower', lower' + span - incr, span * numThreads⟩
    else if schedule = sch_static then
      if tripCount < numThreads then
        if tid < tripCount then
          some ⟨if tid = u32pred tripCount then 1 else 0,
            lower + tid * incr, lower + tid * incr, toI32 tripCount⟩
        else
          some ⟨if tid = u32pred tripCount then 1 else 0,
            upper + incr, upper, toI32 tripCount⟩
      else
        let small_chunk := tripCount / numThreads
        let extras := tripCount % numThreads
        let lower' := lower + incr * (tid * small_chunk + min tid extras)
        some ⟨if tid = numThreads - 1 then 1 else 0,
          lower',
          lower' + small_chunk * incr - (if tid < extras then 0 else incr),
          toI32 tripCount⟩
    else none

-- Reduction engine.

/-- Clang's `_reduction_method` values. -/
inductive ReductionMethod where
  | reduction_method_not_defined
  | critical_reduce_block
  | atomic_reduce_block
  | tree_reduce_block
  | empty_reduce_block
deriving Repr, DecidableEq

/-- `determineReductionMethod`: empty block for a solo team, critical block
otherwise. -/
def determineReductionMethod (numThreads : Nat) : ReductionMethod :=
  if numThreads = 1 then .empty_reduce_block else .critical_reduce_block

/-- `startReduction`: (return value, whether `reduceMutex` was locked).
In the unsupported cases the code constructs but never throws the runtime
error, so `retVal` stays 0. -/
def startReduction (numThreads : Nat) : Int × Bool :=
  match determineReductionMethod numThreads with
  | .critical_reduce_block => (1, true)
  | .empty_reduce_block => (1, false)
  | .atomic_reduce_block => (2, false)
  | .reduction_method_not_defined => (0, false)
  | .tree_reduce_block => (0, false)

/-- `__kmpc_reduce` in local mode: just `startReduction`. -/
def kmpc_reduce (numThreads : Nat)
    (loc gtid num_vars reduce_size reduce_data reduce_func lck : Int) : Int × Bool :=
  startReduction numThreads

-- Distributed fork: the await loop of `__kmpc_fork_call`.

/-- The return code recorded for one sub-invocation: `none` models a timeout
or other exception from `getFunctionResult`, leaving the pre-initialised
`returnCode = 1`; `some rc` is the result's return value. -/
def returnCodeOf : Option Int → Int
  | none => 1
  | some rc => rc

/-- Observable events of the distributed fork's await phase. -/
inductive ForkEvent where
  | awaitResult (idx : Nat)
  | fatalError (numErrors : Nat)
  | returnOk
deriving Repr, DecidableEq

/-- The await loop: awaits each sub-invocation in order, counting every
nonzero return code (timeouts included) as one error.
Result: (numErrors, events emitted). -/
def awaitAll : List (Option Int) → Nat → Nat × List ForkEvent
  | [], _ => (0, [])
  | r :: rs, idx =>
      let rest := awaitAll rs (idx + 1)
      ((if returnCodeOf r ≠ 0 then 1 else 0) + rest.1, .awaitResult idx :: rest.2)

/-- The distributed branch of `__kmpc_fork_call`, after submitting the
sub-invocations: await all results, then throw iff `numErrors` is nonzero. -/
def kmpc_fork_call_distributed (results : List (Option Int)) : List ForkEvent :=
  let awaited := awaitAll results 0
  awaited.2 ++ [if awaited.1 ≠ 0 then .fatalError awaited.1 else .returnOk]

/-- A concrete host oracle, used to instantiate the theorems below on
concrete inputs. -/
def host0 : Host where
  socketRet := 4
  connectRet := 0
  bindRet := 0
  sendRet := 0
  recvRet := 0
  sendtoRet := 0
  recvfromRet := 0
  recvfromAddr := ⟨0, []⟩
  recvfromLen := 0
  getsocknameRet := 0
  getsocknameAddr := ⟨0, []⟩
  getsocknameLen := 0
  readRet := 16
  pollRet := 1
  pollRevents := 0
  openFdFor := fun _ => 3
  writevRet := fun _ _ => 0
  clockRes := -1
  clockSec := 12
  clockNsec := 34

/-- Start offset (in iterations from the loop's lower bound) of thread `t`'s
block in the balanced static partition of `T` iterations over `N` threads:
`t * (T / N) + min t (T % N)`. -/
def balancedOff (T N t : Nat) : Nat := t * (T / N) + min t (T % N)

/-- Number of iterations thread `t` receives in the balanced static
partition: `T / N`, plus one for the first `T % N` threads. -/
def balancedSize (T N t : Nat) : Nat := T / N + (if t < T % N then 1 else 0)

end Faasm

namespace Faasm

-- ------------------------
-- Theorems
-- ------------------------

/-- C10: `__syscall_clock_gettime` returns 0 for every clock id and result
address; the outcome is independent of the host clock's error code (only
logged), and the 32-bit shadow timespec at the result address is written
unconditionally. -/
theorem clock_gettime_never_fails (h : Host) (fds : List Int) (clockId : Int)
    (resultAddress : Nat) (res' : Int) :
    (syscall_clock_gettime h fds clockId resultAddress).ret = some 0
    ∧ syscall_clock_gettime { h with clockRes := res' } fds clockId resultAddress
        = syscall_clock_gettime h fds clockId resultAddress
    ∧ (syscall_clock_gettime h fds clockId resultAddress).writes
        = [.timespecW resultAddress (wrapI32 h.clockSec) (wrapI32 h.clockNsec)] :=
  ⟨rfl, rfl, rfl⟩

theorem buildIovecs_eq (m : Mem) (iov : Nat) :
    ∀ n, buildIovecs m iov n =
      (List.range n).map
        (fun i => readBytes m (readU32 m (iov + 8 * i)) (readU32 m (iov + 8 * i + 4)))
  | 0 => rfl
  | n + 1 => by
      rw [buildIovecs, buildIovecs_eq m iov n, List.range_succ, List.map_append,
        List.map_singleton]

/-- C9: `__syscall_writev` reads `iovcnt` shadow iovec entries, each a
`(base, len)` pair of 32-bit words at 8-byte stride from `iovPtr`, writes the
gathered guest bytes to the host stdout descriptor for every guest `fd`
value, and returns the host `writev` count. -/
theorem writev_ignores_fd_targets_stdout (h : Host) (m : Mem) (fds : List Int)
    (fd : Int) (iov iovcnt : Nat) :
    (let iovs := (List.range iovcnt).map
        (fun i => readBytes m (readU32 m (iov + 8 * i)) (readU32 m (iov + 8 * i + 4)))
     syscall_writev h m fds fd iov iovcnt =
       ⟨some (h.writevRet stdoutFd iovs), [.hWritev stdoutFd iovs], [], fds⟩)
    ∧ ∀ fd' : Int, syscall_writev h m fds fd iov iovcnt
        = syscall_writev h m fds fd' iov iovcnt := by
  constructor
  · show syscall_writev h m fds fd iov iovcnt = _
    rw [syscall_writev, buildIovecs_eq]
  · intro fd'
    rfl

/-- C8 (counterexample): at team size 1 with `lower = 10`, `upper = 0`,
`incr = -1`, the code sets `stride = -(lower - upper + 1) = -11`, while the
claimed formula `(upper - lower + 1) * sign(incr)` gives `9`. -/
theorem static_init_solo_stride_counterexample :
    kmpc_for_static_init_4 1 0 34 0 10 0 0 (-1) 0 = some ⟨1, 10, 0, -11⟩
    ∧ (-11 : Int) ≠ ((0 : Int) - 10 + 1) * (-1) := by
  constructor
  · rfl
  · decide

/-- C8 (amended): when the team size is 1, `__kmpc_for_static_init_4` sets
`lastIter` to true and `stride` to `upper - lower + 1` when `incr > 0` and to
`-(lower - upper + 1)` otherwise, then returns immediately for every schedule
value, leaving `lower` and `upper` unchanged. -/
theorem static_init_solo (tid : Nat)
    (schedule lastIter lower upper stride incr chunk : Int) :
    kmpc_for_static_init_4 1 tid schedule lastIter lower upper stride incr chunk
      = some ⟨1, lower, upper,
          if incr > 0 then upper - lower + 1 else -(lower - upper + 1)⟩ := by
  rw [kmpc_for_static_init_4, if_pos rfl]

/-- C6 (counterexample): for a single-threaded team, local-mode
`__kmpc_reduce` returns 1, not the claimed 0. -/
theorem kmpc_reduce_solo_counterexample :
    (kmpc_reduce 1 0 0 0 0 0 0 0).1 = 1 ∧ (kmpc_reduce 1 0 0 0 0 0 0 0).1 ≠ 0 := by
  constructor
  · rfl
  · decide

/-- C6 (amended): in local mode `__kmpc_reduce` returns 1 for every team
size; the `reduceMutex` is taken (critical path) exactly when the team is
multi-threaded, and for a single-threaded team the selected method is the
empty reduce block (no lock taken). -/
theorem kmpc_reduce_semantics (numThreads : Nat)
    (loc gtid num_vars reduce_size reduce_data reduce_func lck : Int) :
    kmpc_reduce numThreads loc gtid num_vars reduce_size reduce_data reduce_func lck
      = (1, decide (numThreads ≠ 1))
    ∧ determineReductionMethod 1 = .empty_reduce_block := by
  refine ⟨?_, rfl⟩
  rw [kmpc_reduce, startReduction, determineReductionMethod]
  by_cases h : numThreads = 1 <;> simp [h]

theorem awaitAll_eq (rs : List (Option Int)) : ∀ idx : Nat,
    awaitAll rs idx =
      (rs.countP (fun r => decide (returnCodeOf r ≠ 0)),
       (List.range rs.length).map (fun i => ForkEvent.awaitResult (idx + i))) := by
  induction rs with
  | nil => intro idx; rfl
  | cons r rs ih =>
      intro idx
      rw [awaitAll, ih (idx + 1)]
      refine Prod.ext ?_ ?_
      · simp only [List.countP_cons]
        by_cases h : returnCodeOf r = 0
        · simp [h]
        · simp [h]
          omega
      · simp only [List.length_cons, List.range_succ_eq_map, List.map_cons,
          List.map_map, Function.comp]
        rw [Nat.add_zero]
        refine congrArg _ (List.map_congr_left ?_)
        intro i _
        show ForkEvent.awaitResult (idx + 1 + i) = ForkEvent.awaitResult (idx + (i + 1))
        have : idx + 1 + i = idx + (i + 1) := by omega
        rw [this]

/-- C5: the distributed `__kmpc_fork_call` awaits every one of its N
sub-invocation results, in order, before reacting to any failure; a timeout
(`none`) is counted identically to a return code of 1; the call fails fatally
iff at least one sub-invocation erred or timed out, and the fatal error comes
only after all N awaits. -/
theorem fork_call_distributed_awaits_all (results : List (Option Int)) :
    (kmpc_fork_call_distributed results =
      (List.range results.length).map ForkEvent.awaitResult ++
        [if results.any (fun r => decide (returnCodeOf r ≠ 0)) then
           ForkEvent.fatalError (results.countP (fun r => decide (returnCodeOf r ≠ 0)))
         else ForkEvent.returnOk])
    ∧ ((∃ n, ForkEvent.fatalError n ∈ kmpc_fork_call_distributed results) ↔
        ∃ r ∈ results, returnCodeOf r ≠ 0)
    ∧ ∀ pre post : List (Option Int),
        kmpc_fork_call_distributed (pre ++ none :: post)
          = kmpc_fork_call_distributed (pre ++ some 1 :: post) := by
  have hmain : ∀ rs : List (Option Int), kmpc_fork_call_distributed rs =
      (List.range rs.length).map ForkEvent.awaitResult ++
        [if rs.any (fun r => decide (returnCodeOf r ≠ 0)) then
           ForkEvent.fatalError (rs.countP (fun r => decide (returnCodeOf r ≠ 0)))
         else ForkEvent.returnOk] := by
    intro rs
    rw [kmpc_fork_call_distributed, awaitAll_eq rs 0]
    simp only [Nat.zero_add]
    congr 1
    by_cases h : rs.any (fun r => decide (returnCodeOf r ≠ 0))
    · obtain ⟨r, hr, hrc⟩ := List.any_eq_true.mp h
      have hpos : 0 < rs.countP (fun r => decide (returnCodeOf r ≠ 0)) :=
        List.countP_pos_iff.mpr ⟨r, hr, hrc⟩
      rw [if_pos (by omega), if_pos h]
    · have hz : rs.countP (fun r => decide (returnCodeOf r ≠ 0)) = 0 := by
        refine List.countP_eq_zero.mpr ?_
        intro r hr
        simp only [List.any_eq_true, not_exists] at h
        by_contra hc
        exact h r ⟨hr, by simpa using hc⟩
      rw [if_neg (by omega), if_neg h]
  refine ⟨hmain results, ?_, ?_⟩
  · rw [hmain results]
    constructor
    · rintro ⟨n, hn⟩
      rcases List.mem_append.mp hn with hmem | hmem
      · obtain ⟨i, _, hcontr⟩ := List.mem_map.mp hmem
        exact absurd hcontr (by simp)
      · simp only [List.mem_singleton] at hmem
        by_cases hany : results.any (fun r => decide (returnCodeOf r ≠ 0))
        · obtain ⟨r, hr, hrc⟩ := List.any_eq_true.mp hany
          exact ⟨r, hr, by simpa using hrc⟩
        · rw [if_neg hany] at hmem
          exact absurd hmem (by simp)
    · rintro ⟨r, hr, hne⟩
      refine ⟨results.countP (fun r => decide (returnCodeOf r ≠ 0)), ?_⟩
      refine List.mem_append.mpr (Or.inr ?_)
      rw [if_pos (List.any_eq_true.mpr ⟨r, hr, by simpa using hne⟩)]
      exact List.mem_singleton.mpr rfl
  · intro pre post
    rw [hmain, hmain]
    simp [List.countP_append, List.countP_cons, List.any_append, returnCodeOf]

theorem brk_step_le (p a : Nat) :
    (p * pageSize) % two32 ≤ ((syscall_brk p a).2 * pageSize) % two32 := by
  rw [syscall_brk]
  by_cases h : a % two32 / pageSize ≤ p
  · simp [h]
  · simp only [h, if_false]
    have ht : a % two32 < two32 := Nat.mod_lt _ (by norm_num [two32])
    simp only [pageSize, two32] at *
    omega

theorem brkRun_chain_aux : ∀ (addrs : List Nat) (p lb : Nat),
    lb ≤ (p * pageSize) % two32 →
    List.Chain' (· ≤ ·) (lb :: brkRun p addrs) := by
  intro addrs
  induction addrs with
  | nil => intro p lb _; simp [brkRun]
  | cons a as ih =>
      intro p lb hlb
      have hfirst : (syscall_brk p a).1 = (p * pageSize) % two32 := by
        rw [syscall_brk]
        split
        · rfl
        · rfl
      simp only [brkRun]
      rw [List.chain'_cons']
      constructor
      · intro y hy
        rw [List.head?_cons, Option.mem_def, Option.some_inj] at hy
        rw [← hy, hfirst]
        exact hlb
      · rw [hfirst]
        exact ih (syscall_brk p a).2 _ (brk_step_le p a)

/-- C4: `__syscall_brk(addr)` computes the target page count `addr / 65536`;
if the target is at most the current page count it returns the current break
and leaves the page count unchanged, otherwise it grows memory by the
difference in pages (to the target) and still returns the pre-grow break;
consequently the break values returned across any sequence of `brk` calls
never decrease. -/
theorem brk_semantics (pages addr : Nat) (addrs : List Nat)
    (haddr : addr < two32) :
    (addr / pageSize ≤ pages →
        syscall_brk pages addr = ((pages * pageSize) % two32, pages))
    ∧ (pages < addr / pageSize →
        syscall_brk pages addr = ((pages * pageSize) % two32,
          pages + (addr / pageSize - pages)))
    ∧ List.Chain' (· ≤ ·) (brkRun pages addrs) := by
  have hmod : addr % two32 = addr := Nat.mod_eq_of_lt haddr
  refine ⟨?_, ?_, ?_⟩
  · intro h
    rw [syscall_brk, hmod, if_pos h]
  · intro h
    rw [syscall_brk, hmod, if_neg (by omega)]
    refine congrArg _ ?_
    omega
  · cases addrs with
    | nil => simp [brkRun]
    | cons a as =>
        simp only [brkRun]
        refine brkRun_chain_aux as _ _ ?_
        have hfirst : (syscall_brk pages a).1 = (pages * pageSize) % two32 := by
          rw [syscall_brk]
          split
          · rfl
          · rfl
        rw [hfirst]
        exact brk_step_le pages a

/-- C4 (witness): the brk semantics at a concrete input. -/
theorem brk_semantics_witness :
    (300000 : Nat) < two32
    ∧ ((300000 / pageSize ≤ 2 →
          syscall_brk 2 300000 = ((2 * pageSize) % two32, 2))
      ∧ (2 < 300000 / pageSize →
          syscall_brk 2 300000 = ((2 * pageSize) % two32, 2 + (300000 / pageSize - 2)))
      ∧ List.Chain' (· ≤ ·) (brkRun 2 [300000, 100000, 400000])) :=
  ⟨by norm_num [two32], brk_semantics 2 300000 [300000, 100000, 400000] (by norm_num [two32])⟩

/-- C7: `__syscall_mmap` traps whenever `fd ≠ -1`; with `fd = -1` it ignores
`addr` (and the protection arguments), grows memory by `ceil(length / 65536)`
pages and returns the byte address of the first newly allocated page, the
pre-grow page count times 65536; with 2 pages and `length = 130000` it
returns `2 * 65536` and memory becomes 4 pages. -/
theorem mmap_semantics (pages addr length prot flags : Nat) (fd : Int)
    (offset addr' prot' flags' offset' : Nat)
    (hlen : length < two32) (hpages : pages ≤ 65535) :
    (fd ≠ -1 → syscall_mmap pages addr length prot flags fd offset = (none, pages))
    ∧ syscall_mmap pages addr length prot flags (-1) offset
        = (some ((pages * pageSize : Nat) : Int),
            pages + (length + pageSize - 1) / pageSize)
    ∧ syscall_mmap pages addr length prot flags (-1) offset
        = syscall_mmap pages addr' length prot' flags' (-1) offset'
    ∧ syscall_mmap 2 0 130000 0 0 (-1) 0 = (some 131072, 4) := by
  refine ⟨?_, ?_, rfl, by decide⟩
  · intro h
    unfold syscall_mmap
    rw [if_pos h]
  · unfold syscall_mmap
    rw [if_neg (by norm_num)]
    have h1 : length % two32 = length := Nat.mod_eq_of_lt hlen
    have h2 : (pages * pageSize) % two32 = pages * pageSize := by
      refine Nat.mod_eq_of_lt ?_
      simp only [pageSize, two32]
      omega
    rw [h1, h2]

/-- C7 (witness): the mmap semantics at a concrete input. -/
theorem mmap_semantics_witness :
    ((130000 : Nat) < two32 ∧ (2 : Nat) ≤ 65535)
    ∧ (((7 : Int) ≠ -1 → syscall_mmap 2 0 130000 0 0 7 0 = (none, 2))
      ∧ syscall_mmap 2 0 130000 0 0 (-1) 0
          = (some ((2 * pageSize : Nat) : Int), 2 + (130000 + pageSize - 1) / pageSize)
      ∧ syscall_mmap 2 0 130000 0 0 (-1) 0 = syscall_mmap 2 9 130000 1 1 (-1) 9
      ∧ syscall_mmap 2 0 130000 0 0 (-1) 0 = (some 131072, 4)) :=
  ⟨⟨by norm_num [two32], by norm_num⟩,
    mmap_semantics 2 0 130000 0 0 7 0 9 1 1 9 (by norm_num [two32]) (by norm_num)⟩

/-- C1: for every descriptor `fd` absent from the calling thread's registry,
`__syscall_read`, `__syscall_close`, `__syscall_fcntl64`, `__syscall_poll`
and the socketcall sub-operations connect (3), bind (2), send (9), recv (10),
sendto (11), recvfrom (12) and getsockname (6) all end in the fatal trap
(`ret = none`) having performed no host call (`calls = []`, and the registry
and guest memory untouched). -/
theorem fd_not_owned_traps (host : Host) (m : Mem) (fds : List Int) (fd : Int)
    (bufPtr count : Nat) (cmd c : Int) (fdsPtr : Nat) (nfds timeout : Int)
    (argsPtr : Nat)
    (hfd : fd ∉ fds)
    (hpoll : readI32 m fdsPtr = fd)
    (hsock : readI32 m argsPtr = fd) :
    syscall_read host fds fd bufPtr count = trapOut fds
    ∧ syscall_close fds fd = trapOut fds
    ∧ syscall_fcntl64 fds fd cmd c = trapOut fds
    ∧ syscall_poll host m fds fdsPtr nfds timeout = trapOut fds
    ∧ syscall_socketcall host m fds 3 argsPtr = trapOut fds
    ∧ syscall_socketcall host m fds 2 argsPtr = trapOut fds
    ∧ syscall_socketcall host m fds 9 argsPtr = trapOut fds
    ∧ syscall_socketcall host m fds 10 argsPtr = trapOut fds
    ∧ syscall_socketcall host m fds 11 argsPtr = trapOut fds
    ∧ syscall_socketcall host m fds 12 argsPtr = trapOut fds
    ∧ syscall_socketcall host m fds 6 argsPtr = trapOut fds := by
  have hb : checkThreadOwnsFd fds fd = false := by
    simp [checkThreadOwnsFd, hfd]
  refine ⟨?_, ?_, ?_, ?_, ?_, ?_, ?_, ?_, ?_, ?_, ?_⟩
  · unfold syscall_read
    rw [hb]
    rfl
  · unfold syscall_close
    rw [hb]
    rfl
  · unfold syscall_fcntl64
    rw [hb]
    rfl
  · unfold syscall_poll
    by_cases h : nfds = 1
    · simp only [h, ne_eq, not_true_eq_false, if_false, hpoll, hb]
      rfl
    · simp only [ne_eq, h, not_false_eq_true, if_true]
  · unfold syscall_socketcall
    simp only [hsock, hb]
    norm_num
  · unfold syscall_socketcall
    simp only [hsock, hb]
    norm_num
  · unfold syscall_socketcall
    simp only [hsock, hb]
    norm_num
  · unfold syscall_socketcall
    simp only [hsock, hb]
    norm_num
  · unfold syscall_socketcall
    simp only [hsock, hb]
    norm_num
  · unfold syscall_socketcall
    simp only [hsock, hb]
    norm_num
  · unfold syscall_socketcall
    simp only [hsock, hb]
    norm_num

/-- C1 (witness): the trap on an unowned descriptor at a concrete input. -/
theorem fd_not_owned_traps_witness :
    ((5 : Int) ∉ ([] : List Int) ∧ readI32 [5] 0 = 5 ∧ readI32 [5] 0 = 5)
    ∧ (syscall_read host0 [] 5 0 16 = trapOut []
      ∧ syscall_close [] 5 = trapOut []
      ∧ syscall_fcntl64 [] 5 0 0 = trapOut []
      ∧ syscall_poll host0 [5] [] 0 1 0 = trapOut []
      ∧ syscall_socketcall host0 [5] [] 3 0 = trapOut []
      ∧ syscall_socketcall host0 [5] [] 2 0 = trapOut []
      ∧ syscall_socketcall host0 [5] [] 9 0 = trapOut []
      ∧ syscall_socketcall host0 [5] [] 10 0 = trapOut []
      ∧ syscall_socketcall host0 [5] [] 11 0 = trapOut []
      ∧ syscall_socketcall host0 [5] [] 12 0 = trapOut []
      ∧ syscall_socketcall host0 [5] [] 6 0 = trapOut []) :=
  ⟨⟨by decide, by decide, by decide⟩,
    fd_not_owned_traps host0 [5] [] 5 0 16 0 0 0 1 0 0
      (by decide) (by decide) (by decide)⟩

/-- C2: `__syscall_open` traps fatally on every non-whitelisted guest path
and on every nonzero mode even for a whitelisted path; with mode 0 and a
whitelisted path, when the host open of the mapped file yields a positive
descriptor, that descriptor is inserted into the thread's registry and
returned, and it is ≥ 0. -/
theorem open_whitelist (h : Host) (m : Mem) (fds : List Int) (pathPtr : Nat)
    (flags mode : Int) :
    (mode ≠ 0 → syscall_open h m fds pathPtr flags mode = trapOut fds)
    ∧ (readCString m pathPtr ≠ hostsGuestPath →
        readCString m pathPtr ≠ resolvGuestPath →
        syscall_open h m fds pathPtr flags mode = trapOut fds)
    ∧ (mode = 0 → readCString m pathPtr = hostsGuestPath →
        0 < h.openFdFor HOSTS_FILE →
        syscall_open h m fds pathPtr flags mode
          = ⟨some (h.openFdFor HOSTS_FILE), [.hOpen HOSTS_FILE], [],
              fds.insert (h.openFdFor HOSTS_FILE)⟩
          ∧ 0 ≤ h.openFdFor HOSTS_FILE)
    ∧ (mode = 0 → readCString m pathPtr = resolvGuestPath →
        0 < h.openFdFor RESOLV_FILE →
        syscall_open h m fds pathPtr flags mode
          = ⟨some (h.openFdFor RESOLV_FILE), [.hOpen RESOLV_FILE], [],
              fds.insert (h.openFdFor RESOLV_FILE)⟩
          ∧ 0 ≤ h.openFdFor RESOLV_FILE) := by
  refine ⟨?_, ?_, ?_, ?_⟩
  · intro hm
    unfold syscall_open
    rw [if_pos hm]
  · intro h1 h2
    by_cases hm : mode = 0
    · unfold syscall_open
      rw [if_neg (by simpa using hm), if_neg h1, if_neg h2]
    · unfold syscall_open
      rw [if_pos hm]
  · intro hm hpath hofd
    unfold syscall_open
    rw [if_neg (by simpa using hm), if_pos hpath, if_pos hofd]
    exact ⟨rfl, le_of_lt hofd⟩
  · intro hm hpath hofd
    have hne : readCString m pathPtr ≠ hostsGuestPath := by
      rw [hpath]
      decide
    unfold syscall_open
    rw [if_neg (by simpa using hm), if_neg hne, if_pos hpath, if_pos hofd]
    exact ⟨rfl, le_of_lt hofd⟩

/-- C2 (witness): opening `/etc/hosts` with mode 0 at a concrete input. -/
theorem open_whitelist_witness :
    ((0 : Int) = 0
      ∧ readCString (hostsGuestPath ++ [0]) 0 = hostsGuestPath
      ∧ 0 < host0.openFdFor HOSTS_FILE)
    ∧ (syscall_open host0 (hostsGuestPath ++ [0]) [] 0 0 0
        = ⟨some (host0.openFdFor HOSTS_FILE), [.hOpen HOSTS_FILE], [],
            ([] : List Int).insert (host0.openFdFor HOSTS_FILE)⟩
      ∧ 0 ≤ host0.openFdFor HOSTS_FILE) :=
  ⟨⟨rfl, by decide, by decide⟩,
    (open_whitelist host0 (hostsGuestPath ++ [0]) [] 0 0 0).2.2.1
      rfl (by decide) (by decide)⟩

-- Lemmas about the balanced static partition, towards C3.

theorem balancedOff_zero (T N : Nat) : balancedOff T N 0 = 0 := by
  simp [balancedOff]

theorem balancedOff_succ (T N t : Nat) :
    balancedOff T N (t + 1) = balancedOff T N t + balancedSize T N t := by
  unfold balancedOff balancedSize
  rcases Nat.lt_or_ge t (T % N) with h | h
  · rw [Nat.min_eq_left (by omega), Nat.min_eq_left (by omega), if_pos h,
      Nat.succ_mul]
    ring
  · rw [Nat.min_eq_right (by omega), Nat.min_eq_right h, if_neg (by omega),
      Nat.succ_mul]
    ring

theorem balancedSize_pos (T N t : Nat) (h : 1 ≤ T / N) :
    1 ≤ balancedSize T N t := by
  unfold balancedSize
  split
  · omega
  · omega

theorem balancedOff_lt_succ (T N : Nat) (h : 1 ≤ T / N) (t : Nat) :
    balancedOff T N t < balancedOff T N (t + 1) := by
  rw [balancedOff_succ]
  have := balancedSize_pos T N t h
  omega

theorem balancedOff_top (T N : Nat) (hN : 0 < N) : balancedOff T N N = T := by
  unfold balancedOff
  rw [Nat.min_eq_right (le_of_lt (Nat.mod_lt _ hN))]
  exact Nat.div_add_mod T N

theorem block_exists (f : Nat → Nat) (hmono : ∀ t, f t < f (t + 1)) :
    ∀ N j : Nat, f 0 ≤ j → j < f N →
      ∃ t, t < N ∧ f t ≤ j ∧ j < f (t + 1) := by
  intro N
  induction N with
  | zero => intro j h0 hN; omega
  | succ n ih =>
      intro j h0 hN
      by_cases h : j < f n
      · obtain ⟨t, ht, hlo, hhi⟩ := ih j h0 h
        exact ⟨t, by omega, hlo, hhi⟩
      · exact ⟨n, by omega, by omega, hN⟩

theorem block_unique (f : Nat → Nat) (hmono : ∀ t, f t < f (t + 1))
    (j t₁ t₂ : Nat) (h₁ : f t₁ ≤ j ∧ j < f (t₁ + 1))
    (h₂ : f t₂ ≤ j ∧ j < f (t₂ + 1)) : t₁ = t₂ := by
  have hsm : StrictMono f := strictMono_nat_of_lt_succ hmono
  rcases lt_trichotomy t₁ t₂ with h | h | h
  · have : f (t₁ + 1) ≤ f t₂ := hsm.monotone (by omega)
    omega
  · exact h
  · have : f (t₂ + 1) ≤ f t₁ := hsm.monotone (by omega)
    omega

theorem static_init_balanced_eq (numThreads tid : Nat)
    (li lower upper st chunk : Int)
    (hN : 2 ≤ numThreads) (hW : upper - lower + 1 < 2 ^ 31)
    (hT : (numThreads : Int) ≤ upper - lower + 1) :
    kmpc_for_static_init_4 numThreads tid 34 li lower upper st 1 chunk
      = some ⟨if tid = numThreads - 1 then 1 else 0,
          lower + (balancedOff (upper - lower + 1).toNat numThreads tid : Nat),
          lower + (balancedOff (upper - lower + 1).toNat numThreads tid : Nat)
            + (balancedSize (upper - lower + 1).toNat numThreads tid : Nat) - 1,
          upper - lower + 1⟩ := by
  have hN1 : ¬ numThreads = 1 := by omega
  have hmod : (upper - lower + 1) % (two32 : Int) = upper - lower + 1 := by
    refine Int.emod_eq_of_lt (by omega) ?_
    have : ((two32 : Nat) : Int) = 4294967296 := by norm_num [two32]
    omega
  unfold kmpc_for_static_init_4
  rw [if_neg hN1]
  simp only [if_pos rfl, sch_static_chunked, sch_static]
  rw [hmod]
  simp only [if_true]
  have hTnat : ¬ ((upper - lower + 1).toNat < numThreads) := by omega
  rw [if_neg hTnat]
  have hstride : toI32 (upper - lower + 1).toNat = upper - lower + 1 := by
    unfold toI32
    have h1 : (upper - lower + 1).toNat % two32 = (upper - lower + 1).toNat := by
      refine Nat.mod_eq_of_lt ?_
      have : (2:Nat) ^ 31 < two32 := by norm_num [two32]
      omega
    rw [h1, if_pos (by omega)]
    omega
  rw [hstride]
  refine congrArg some ?_
  simp only [LoopBounds.mk.injEq]
  refine ⟨trivial, ?_, ?_, trivial⟩
  · unfold balancedOff
    push_cast
    ring
  · unfold balancedOff balancedSize
    rcases Nat.lt_or_ge tid ((upper - lower + 1).toNat % numThreads) with h | h
    · rw [if_pos h, if_pos h]
      push_cast
      ring
    · rw [if_neg (by omega), if_neg (by omega)]
      push_cast
      ring

theorem static_init_components (numThreads t : Nat) (li lower upper st chunk : Int)
    (hN : 2 ≤ numThreads) (hW : upper - lower + 1 < 2 ^ 31)
    (hT : (numThreads : Int) ≤ upper - lower + 1) (b : LoopBounds)
    (hb : kmpc_for_static_init_4 numThreads t 34 li lower upper st 1 chunk = some b) :
    b.lastIter = (if t = numThreads - 1 then 1 else 0)
    ∧ b.lower = lower + (balancedOff (upper - lower + 1).toNat numThreads t : Nat)
    ∧ b.upper = lower + (balancedOff (upper - lower + 1).toNat numThreads t : Nat)
        + (balancedSize (upper - lower + 1).toNat numThreads t : Nat) - 1
    ∧ b.stride = upper - lower + 1 := by
  rw [static_init_balanced_eq numThreads t li lower upper st chunk hN hW hT] at hb
  obtain rfl := Option.some.inj hb
  exact ⟨rfl, rfl, rfl, rfl⟩

/-- C3: for `sch_static` with no chunk on a team of `N ≥ 2` threads with
`incr = 1` and `tripCount = upper - lower + 1 ≥ N` (in `I32` range), the `N`
per-thread `[lower, upper]` ranges cover every iteration of `[lower..upper]`
exactly once, any two range sizes differ by at most 1, `lastIter` is 1
exactly for thread `N - 1`, and `stride = tripCount`; in particular for
`num_threads = 3, lower = 0, upper = 9, incr = 1` the threads receive
`[0..3], [4..6], [7..9]` with stride 10 and `lastIter` only on thread 2. -/
theorem static_init_partition (numThreads : Nat) (li lower upper st chunk : Int)
    (hN : 2 ≤ numThreads) (hW : upper - lower + 1 < 2 ^ 31)
    (hT : (numThreads : Int) ≤ upper - lower + 1) :
    (∀ i : Int, lower ≤ i → i ≤ upper →
      ∃! t : Nat, t < numThreads ∧ ∃ b : LoopBounds,
        kmpc_for_static_init_4 numThreads t 34 li lower upper st 1 chunk = some b
        ∧ b.lower ≤ i ∧ i ≤ b.upper)
    ∧ (∀ t₁ t₂ : Nat, ∀ b₁ b₂ : LoopBounds, t₁ < numThreads → t₂ < numThreads →
        kmpc_for_static_init_4 numThreads t₁ 34 li lower upper st 1 chunk = some b₁ →
        kmpc_for_static_init_4 numThreads t₂ 34 li lower upper st 1 chunk = some b₂ →
        ((b₁.upper - b₁.lower + 1) - (b₂.upper - b₂.lower + 1)).natAbs ≤ 1)
    ∧ (∀ t : Nat, ∀ b : LoopBounds, t < numThreads →
        kmpc_for_static_init_4 numThreads t 34 li lower upper st 1 chunk = some b →
        (b.lastIter = 1 ↔ t = numThreads - 1))
    ∧ (∀ t : Nat, ∀ b : LoopBounds, t < numThreads →
        kmpc_for_static_init_4 numThreads t 34 li lower upper st 1 chunk = some b →
        b.stride = upper - lower + 1)
    ∧ (kmpc_for_static_init_4 3 0 34 0 0 9 0 1 0 = some ⟨0, 0, 3, 10⟩
      ∧ kmpc_for_static_init_4 3 1 34 0 0 9 0 1 0 = some ⟨0, 4, 6, 10⟩
      ∧ kmpc_for_static_init_4 3 2 34 0 0 9 0 1 0 = some ⟨1, 7, 9, 10⟩) := by
  have hT0 : ((upper - lower + 1).toNat : Int) = upper - lower + 1 :=
    Int.toNat_of_nonneg (by omega)
  set T := (upper - lower + 1).toNat with hTdef
  have hTN : numThreads ≤ T := by omega
  have hNpos : 0 < numThreads := by omega
  have hsmall : 1 ≤ T / numThreads := (Nat.one_le_div_iff hNpos).mpr hTN
  have hmono := balancedOff_lt_succ T numThreads hsmall
  have hcomp := fun t b hb => static_init_components numThreads t li lower upper
    st chunk hN hW hT b hb
  refine ⟨?_, ?_, ?_, ?_, by decide, by decide, by decide⟩
  · -- coverage: each iteration lies in exactly one thread's range
    intro i hlo hhi
    have hj0 : (0 : Int) ≤ i - lower := by omega
    have hji : ((i - lower).toNat : Int) = i - lower := Int.toNat_of_nonneg hj0
    set j := (i - lower).toNat with hjdef
    have hjT : j < T := by omega
    obtain ⟨t, htN, hfl, hfh⟩ := block_exists (balancedOff T numThreads) hmono
      numThreads j (by rw [balancedOff_zero]; omega)
      (by rw [balancedOff_top T numThreads hNpos]; exact hjT)
    have hsucc := balancedOff_succ T numThreads t
    refine ⟨t, ⟨htN, ⟨_, static_init_balanced_eq numThreads t li lower upper st
      chunk hN hW hT, ?_, ?_⟩⟩, ?_⟩
    · show lower + (balancedOff T numThreads t : Nat) ≤ i
      omega
    · show i ≤ lower + (balancedOff T numThreads t : Nat)
        + (balancedSize T numThreads t : Nat) - 1
      omega
    · rintro t' ⟨ht'N, b', hb', hlo', hhi'⟩
      obtain ⟨_, hl', hu', _⟩ := hcomp t' b' hb'
      rw [← hTdef] at hl' hu'
      have hsucc' := balancedOff_succ T numThreads t'
      refine block_unique (balancedOff T numThreads) hmono j t' t ⟨?_, ?_⟩ ⟨hfl, hfh⟩
      · rw [hl'] at hlo'
        omega
      · rw [hu'] at hhi'
        have hpos' := balancedSize_pos T numThreads t' hsmall
        omega
  · -- sizes differ by at most one
    intro t₁ t₂ b₁ b₂ h₁ h₂ hb₁ hb₂
    obtain ⟨_, hl₁, hu₁, _⟩ := hcomp t₁ b₁ hb₁
    obtain ⟨_, hl₂, hu₂, _⟩ := hcomp t₂ b₂ hb₂
    rw [← hTdef] at hl₁ hu₁ hl₂ hu₂
    rw [hl₁, hu₁, hl₂, hu₂]
    obtain ⟨s, hs⟩ : ∃ s, T / numThreads = s := ⟨_, rfl⟩
    unfold balancedSize
    rw [hs]
    split_ifs <;> push_cast <;> omega
  · -- lastIter exactly on thread numThreads - 1
    intro t b htN hb
    obtain ⟨hli, _, _, _⟩ := hcomp t b hb
    rw [hli]
    split_ifs with h
    · simp [h]
    · simp [h]
  · -- stride is the trip count
    intro t b htN hb
    exact (hcomp t b hb).2.2.2

/-- C3 (witness): the partition properties at the S5 instance
`numThreads = 3, lower = 0, upper = 9, incr = 1`. -/
theorem static_init_partition_witness :
    ((2 : Nat) ≤ 3 ∧ (9 : Int) - 0 + 1 < 2 ^ 31 ∧ ((3 : Nat) : Int) ≤ 9 - 0 + 1)
    ∧ (∀ i : Int, 0 ≤ i → i ≤ 9 →
        ∃! t : Nat, t < 3 ∧ ∃ b : LoopBounds,
          kmpc_for_static_init_4 3 t 34 0 0 9 0 1 0 = some b
          ∧ b.lower ≤ i ∧ i ≤ b.upper) :=
  ⟨⟨by norm_num, by norm_num, by norm_num⟩,
    (static_init_partition 3 0 0 9 0 0 (by norm_num) (by norm_num) (by norm_num)).1⟩

end Faasm
